import Mathlib

/-
Verification of `extract_multiple_images_from_composite.py` (Image-Tools).

The script loads a composite image with OpenCV, converts it to grayscale,
applies inverted adaptive thresholding, finds external contours, and for
every contour whose bounding box is strictly larger than 20×20 it crops the
region, builds a filled-contour mask, bitwise-ANDs the crop with itself under
that mask, and writes the result to `<folder>_<i+1>.png` where `i` is the
contour's position in the detected-contour list.

OpenCV internals that the script calls but does not define (the Gaussian
local mean used by `cv2.adaptiveThreshold`, the contour detector
`cv2.findContours`, and the filled-interior test of `cv2.drawContours`) are
abstracted as explicit function parameters; theorems that depend on their
documented behaviour take that behaviour as a hypothesis.
-/

set_option maxHeartbeats 1000000

namespace ImageTools

/-- A colour pixel in OpenCV's BGR channel order: (blue, green, red). -/
abbrev Pixel := Nat × Nat × Nat

/-- A colour raster: `px row col` is the pixel at row `row`, column `col`.
Values outside the `width × height` range model OpenCV border replication
and are irrelevant to in-range behaviour. -/
@[ext] structure Img where
  width : Nat
  height : Nat
  px : Nat → Nat → Pixel

/-- A contour point `(x, y)` as OpenCV stores it: `x` is the column, `y` the row. -/
abbrev Point := Nat × Nat

/-- A contour as returned by `cv2.findContours`: a list of boundary points. -/
abbrev Contour := List Point

/-- Bounding rectangle `(x, y, w, h)` as returned by `cv2.boundingRect`. -/
structure Rect where
  x : Nat
  y : Nat
  w : Nat
  h : Nat

/-- Embedding of `cv2.boundingRect(contour)`: the minimal upright rectangle
containing the points, with `w = maxX - minX + 1` and `h = maxY - minY + 1`. -/
def boundingRect : Contour → Rect
  | [] => ⟨0, 0, 0, 0⟩
  | p :: ps =>
    let xs := ps.map Prod.fst
    let ys := ps.map Prod.snd
    let x0 := xs.foldl Nat.min p.1
    let y0 := ys.foldl Nat.min p.2
    let x1 := xs.foldl Nat.max p.1
    let y1 := ys.foldl Nat.max p.2
    ⟨x0, y0, x1 - x0 + 1, y1 - y0 + 1⟩

/-- Constant `MIN_CONTOUR_WIDTH` from the script. -/
def MIN_CONTOUR_WIDTH : Nat := 20

/-- Constant `MIN_CONTOUR_HEIGHT` from the script. -/
def MIN_CONTOUR_HEIGHT : Nat := 20

/-- The size filter of the loop body: `w > MIN_CONTOUR_WIDTH and h > MIN_CONTOUR_HEIGHT`. -/
def survives (c : Contour) : Prop :=
  MIN_CONTOUR_WIDTH < (boundingRect c).w ∧ MIN_CONTOUR_HEIGHT < (boundingRect c).h

instance (c : Contour) : Decidable (survives c) :=
  inferInstanceAs (Decidable (MIN_CONTOUR_WIDTH < (boundingRect c).w ∧
    MIN_CONTOUR_HEIGHT < (boundingRect c).h))

/-- Embedding of `cv2.cvtColor(img, cv2.COLOR_BGR2GRAY)` on one BGR pixel,
using OpenCV's fixed-point coefficients:
`Y = (B*1868 + G*9617 + R*4899 + 2^13) >> 14`. -/
def grayOf (p : Pixel) : Nat :=
  (p.1 * 1868 + p.2.1 * 9617 + p.2.2 * 4899 + 8192) >>> 14

/-- The grayscale raster produced by `cv2.cvtColor` on a colour image. -/
def grayImg (img : Img) : Nat → Nat → Nat :=
  fun y x => grayOf (img.px y x)

/-- Embedding of `cv2.adaptiveThreshold(gray, maxVal, ADAPTIVE_THRESH_GAUSSIAN_C,
THRESH_BINARY_INV, 11, C)`: the destination pixel is `0` when the source pixel
exceeds the local threshold `mean - C` and `maxVal` otherwise.  `mean`
abstracts the Gaussian-weighted 11×11 local mean with replicated borders. -/
def adaptiveThreshInv (mean : (Nat → Nat → Nat) → Nat → Nat → Nat)
    (g : Nat → Nat → Nat) (maxVal : Nat) (C : Int) : Nat → Nat → Nat :=
  fun y x => if ((g y x : Int) > (mean g y x : Int) - C) then 0 else maxVal

/-- Embedding of the NumPy slice `img[y:y+h, x:x+w]`: slicing clips the stop
(and start) indices at the array bounds, so the slice is read directly from
the source raster at the clipped offsets. -/
def sliceRoi (img : Img) (x y w h : Nat) : Img where
  width := min (x + w) img.width - min x img.width
  height := min (y + h) img.height - min y img.height
  px := fun r c => img.px (min y img.height + r) (min x img.width + c)

/-- The contour translated by `- [x, y]`, as in `contour - [x, y]` in the script. -/
def shiftContour (c : Contour) (x y : Nat) : Contour :=
  c.map (fun p => (p.1 - x, p.2 - y))

/-- The mask raster after `mask = np.zeros((h, w)); cv2.drawContours(mask,
[contour - [x, y]], -1, (255), thickness=cv2.FILLED)`: `255` on the filled
contour interior (as decided by the abstract interior test `inFill`),
`0` everywhere else.  -/
def fillMaskVal (inFill : Contour → Point → Bool) (c : Contour) (x y : Nat) :
    Nat → Nat → Nat :=
  fun r col => if inFill (shiftContour c x y) (col, r) then 255 else 0

/-- Per-channel bitwise AND of two pixels. -/
def pxAnd (a b : Pixel) : Pixel :=
  (a.1 &&& b.1, a.2.1 &&& b.2.1, a.2.2 &&& b.2.2)

/-- Embedding of `cv2.bitwise_and(a, b, mask=mask)`: where the mask is nonzero
the destination is the per-channel AND of the inputs, elsewhere the
destination stays at its zero initialisation. -/
def bitwiseAndMasked (a b : Img) (mask : Nat → Nat → Nat) : Img where
  width := a.width
  height := a.height
  px := fun y x => if mask y x ≠ 0 then pxAnd (a.px y x) (b.px y x) else (0, 0, 0)

/-- The raster saved for one surviving contour:
`roi = img[y:y+h, x:x+w]; roi_transparent = cv2.bitwise_and(roi, roi, mask=mask)`. -/
def maskedRoi (inFill : Contour → Point → Bool) (img : Img) (c : Contour) : Img :=
  let r := boundingRect c
  bitwiseAndMasked (sliceRoi img r.x r.y r.w r.h) (sliceRoi img r.x r.y r.w r.h)
    (fillMaskVal inFill c r.x r.y)

/-- Output filename `f"{output_folder_name}_{n}.png"`. -/
def fileName (folder : String) (n : Nat) : String :=
  folder ++ "_" ++ toString n ++ ".png"

/-- One file written by `cv2.imwrite`, recording the 1-based index used in
its name, the name itself, and the raster written. -/
structure SavedFile where
  index : Nat
  name : String
  image : Img

/-- The file the loop body writes for the contour at 0-based position `ic.1`
in the detected-contour list (`None` when the size filter discards it). -/
def savedFor (inFill : Contour → Point → Bool) (folder : String) (img : Img)
    (ic : Nat × Contour) : Option SavedFile :=
  if survives ic.2 then
    some ⟨ic.1 + 1, fileName folder (ic.1 + 1), maskedRoi inFill img ic.2⟩
  else none

/-- A heap cell: either a colour raster (such as the loaded image or a
`bitwise_and` destination) or a single-channel raster (such as a mask). -/
inductive Buf where
  | color (img : Img)
  | mono (width height : Nat) (val : Nat → Nat → Nat)

/-- Default heap cell used for out-of-range reads. -/
def dfltBuf : Buf := Buf.mono 0 0 (fun _ _ => 0)

/-- Read a heap cell as a colour raster. -/
def Buf.asColor : Buf → Img
  | Buf.color i => i
  | Buf.mono _ _ _ => ⟨0, 0, fun _ _ => (0, 0, 0)⟩

/-- Read a heap cell as a single-channel raster. -/
def Buf.monoVal : Buf → Nat → Nat → Nat
  | Buf.color _ => fun _ _ => 0
  | Buf.mono _ _ v => v

/-- One iteration of the contour loop at buffer level.  The loaded image
lives in heap cell 0 and is only read (the NumPy slice `roi` is a view of
it); `np.zeros` allocates a fresh mask cell, `cv2.drawContours` overwrites
that fresh cell only, and `cv2.bitwise_and` allocates a fresh destination
cell.  The written files are accumulated in the second component. -/
def stepContour (inFill : Contour → Point → Bool) (folder : String)
    (st : List Buf × List SavedFile) (ic : Nat × Contour) :
    List Buf × List SavedFile :=
  let heap := st.1
  let img := (heap.getD 0 dfltBuf).asColor
  let r := boundingRect ic.2
  if survives ic.2 then
    let heap1 := heap ++ [Buf.mono r.w r.h (fun _ _ => 0)]
    let heap2 := heap1.set heap.length (Buf.mono r.w r.h (fillMaskVal inFill ic.2 r.x r.y))
    let roi := sliceRoi img r.x r.y r.w r.h
    let maskv := (heap2.getD heap.length dfltBuf).monoVal
    let dst := bitwiseAndMasked roi roi maskv
    (heap2 ++ [Buf.color dst],
      st.2 ++ [⟨ic.1 + 1, fileName folder (ic.1 + 1), dst⟩])
  else st

/-- The observable outcome of one run of the script. -/
structure RunResult where
  errorLogged : Bool
  dirCreated : Bool
  heap : List Buf
  files : List SavedFile
  zipWritten : Bool

/-- Embedding of `extract_multiple_images_from_composite(input_path,
output_path, zip_output)`.  `imread` is the result of `cv2.imread`
(`none` on load failure); `detect` abstracts `cv2.findContours(...,
RETR_EXTERNAL, CHAIN_APPROX_SIMPLE)`; `inFill` abstracts the filled-interior
test of `cv2.drawContours`; `output_folder_name` is
`os.path.basename(os.path.normpath(output_path))`.  On load failure the
function logs an error and returns before any directory creation, file
write or zipping; otherwise the output directory is created, the contour
loop runs, and the folder is zipped exactly when `zip_output` is set. -/
def extract_multiple_images_from_composite
    (mean : (Nat → Nat → Nat) → Nat → Nat → Nat)
    (detect : (Nat → Nat → Nat) → List Contour)
    (inFill : Contour → Point → Bool)
    (imread : Option Img) (output_folder_name : String) (zip_output : Bool) :
    RunResult :=
  match imread with
  | none =>
    { errorLogged := true, dirCreated := false, heap := [], files := [],
      zipWritten := false }
  | some img =>
    let gray := grayImg img
    let adaptive_thresh := adaptiveThreshInv mean gray 255 2
    let contours := detect adaptive_thresh
    let heap0 := [Buf.color img, Buf.mono img.width img.height gray,
      Buf.mono img.width img.height adaptive_thresh]
    let res := contours.enum.foldl (stepContour inFill output_folder_name) (heap0, [])
    { errorLogged := false, dirCreated := true, heap := res.1, files := res.2,
      zipWritten := zip_output }

/-- The state of the output directory: contents of each file by name. -/
abbrev FileStore := String → Option Img

/-- One `cv2.imwrite`: unconditionally (over)write the named file. -/
def writeFile (fs : FileStore) (nm : String) (content : Img) : FileStore :=
  fun n => if n = nm then some content else fs n

/-- Apply a run's writes to the output directory, in order. -/
def applyWrites (fs : FileStore) (l : List SavedFile) : FileStore :=
  l.foldl (fun acc f => writeFile acc f.name f.image) fs

/-- The last content written to a given name by a write list, if any. -/
def lastWrite : List SavedFile → String → Option Img
  | [], _ => none
  | f :: t, n =>
    match lastWrite t n with
    | some v => some v
    | none => if f.name = n then some f.image else none

/-- A whole run viewed as a transformer of the output directory. -/
def runOnStore (mean : (Nat → Nat → Nat) → Nat → Nat → Nat)
    (detect : (Nat → Nat → Nat) → List Contour)
    (inFill : Contour → Point → Bool)
    (imread : Option Img) (folder : String) (z : Bool) (fs : FileStore) :
    FileStore :=
  applyWrites fs
    (extract_multiple_images_from_composite mean detect inFill imread folder z).files

/-- Spec-side raster (for the refinement claim about masking): the per-pixel,
per-channel bitwise AND of a cropped region with a single-channel mask. -/
def andMaskSpec (roi : Img) (mask : Nat → Nat → Nat) : Img where
  width := roi.width
  height := roi.height
  px := fun y x =>
    ((roi.px y x).1 &&& mask y x, (roi.px y x).2.1 &&& mask y x,
      (roi.px y x).2.2 &&& mask y x)

/-- A Gaussian-mean instance for witnesses: the delta kernel (a normalised
kernel concentrated at the centre). -/
def meanId : (Nat → Nat → Nat) → Nat → Nat → Nat := fun g => g

/-- An interior test for witnesses: everything counts as interior. -/
def inFillAll : Contour → Point → Bool := fun _ _ => true

/-- A detector instance for witnesses: no contours. -/
def detectEmpty : (Nat → Nat → Nat) → List Contour := fun _ => []

/-- A one-point contour with a 1×1 bounding box (discarded by the filter). -/
def contourSmall : Contour := [(0, 0)]

/-- A contour with a 41×41 bounding box (kept by the filter). -/
def contourBig : Contour := [(0, 0), (40, 40)]

/-- A detector instance for witnesses: one undersized contour followed by one
surviving contour. -/
def detectTwo : (Nat → Nat → Nat) → List Contour := fun _ => [contourSmall, contourBig]

/-- A detector instance for witnesses: a single surviving contour. -/
def detectOne : (Nat → Nat → Nat) → List Contour := fun _ => [contourBig]

/-- A 64×64 all-black test image. -/
def imgDark : Img := ⟨64, 64, fun _ _ => (0, 0, 0)⟩

/-- An all-white test image. -/
def imgWhite : Img := ⟨8, 8, fun _ _ => (255, 255, 255)⟩

/-- A 64×64 constant colour test image with small channel values. -/
def imgTint : Img := ⟨64, 64, fun _ _ => (10, 20, 30)⟩

/-- Folding `Nat.min` over a list never exceeds the seed. -/
theorem foldl_min_le (l : List Nat) : ∀ a : Nat, l.foldl Nat.min a ≤ a := by
  induction l with
  | nil => intro a; simp
  | cons b t ih =>
    intro a
    exact le_trans (ih (Nat.min a b)) (Nat.min_le_left a b)

/-- Folding `Nat.max` over a list is at least the seed. -/
theorem le_foldl_max (l : List Nat) : ∀ a : Nat, a ≤ l.foldl Nat.max a := by
  induction l with
  | nil => intro a; simp
  | cons b t ih =>
    intro a
    exact le_trans (Nat.le_max_left a b) (ih (Nat.max a b))

/-- Folding `Nat.max` over a list of bounded values stays bounded. -/
theorem foldl_max_lt (l : List Nat) :
    ∀ a W : Nat, a < W → (∀ b ∈ l, b < W) → l.foldl Nat.max a < W := by
  induction l with
  | nil => intro a W ha _; simpa using ha
  | cons b t ih =>
    intro a W ha hl
    exact ih (Nat.max a b) W
      (Nat.max_lt.mpr ⟨ha, hl b (List.mem_cons_self b t)⟩)
      (fun x hx => hl x (List.mem_cons_of_mem b hx))

/-- The folded minimum never exceeds the folded maximum. -/
theorem foldl_min_le_foldl_max (l : List Nat) (a : Nat) :
    l.foldl Nat.min a ≤ l.foldl Nat.max a :=
  le_trans (foldl_min_le l a) (le_foldl_max l a)

/-- Reading inside the left part of an appended list. -/
theorem getD_append_left {α : Type} (d : α) (l l' : List α) (n : Nat)
    (h : n < l.length) : (l ++ l').getD n d = l.getD n d := by
  simp [List.getD_eq_getElem?_getD, List.getElem?_append_left h]

/-- Setting one index leaves reads at another index unchanged. -/
theorem getD_set_ne {α : Type} (d : α) (l : List α) {i j : Nat} (h : i ≠ j)
    (b : α) : (l.set i b).getD j d = l.getD j d := by
  simp [List.getD_eq_getElem?_getD, List.getElem?_set_ne h]

/-- Reading back an in-range set index yields the written value. -/
theorem getD_set_self {α : Type} (d : α) (l : List α) {i : Nat}
    (h : i < l.length) (b : α) : (l.set i b).getD i d = b := by
  simp [List.getD_eq_getElem?_getD, h]

/-- One surviving iteration of the contour loop, resolved: the fresh mask is
allocated at index `heap.length`, overwritten with the filled contour, and
the destination of `bitwise_and` is exactly `maskedRoi`; the file appended
matches `savedFor`. -/
theorem stepContour_pos (inFill : Contour → Point → Bool) (folder : String)
    (img : Img) (heap : List Buf) (fs : List SavedFile) (ic : Nat × Contour)
    (_hlen : 0 < heap.length) (h0 : heap.getD 0 dfltBuf = Buf.color img)
    (hs : survives ic.2) :
    stepContour inFill folder (heap, fs) ic =
      ((heap ++ [Buf.mono (boundingRect ic.2).w (boundingRect ic.2).h
            (fun _ _ => 0)]).set heap.length
          (Buf.mono (boundingRect ic.2).w (boundingRect ic.2).h
            (fillMaskVal inFill ic.2 (boundingRect ic.2).x (boundingRect ic.2).y))
        ++ [Buf.color (maskedRoi inFill img ic.2)],
       fs ++ [⟨ic.1 + 1, fileName folder (ic.1 + 1), maskedRoi inFill img ic.2⟩]) := by
  have hmask :
      (((heap ++ [Buf.mono (boundingRect ic.2).w (boundingRect ic.2).h
            (fun _ _ => 0)]).set heap.length
          (Buf.mono (boundingRect ic.2).w (boundingRect ic.2).h
            (fillMaskVal inFill ic.2 (boundingRect ic.2).x
              (boundingRect ic.2).y))).getD heap.length dfltBuf) =
        Buf.mono (boundingRect ic.2).w (boundingRect ic.2).h
          (fillMaskVal inFill ic.2 (boundingRect ic.2).x (boundingRect ic.2).y) := by
    apply getD_set_self
    simp
  simp only [stepContour, h0, Buf.asColor, if_pos hs, hmask, Buf.monoVal,
    maskedRoi]

/-- Invariant of the contour loop: the loaded image in heap cell 0 is never
overwritten, the heap stays nonempty, and the accumulated file list is
exactly the `filterMap` of `savedFor` over the remaining (index, contour)
pairs. -/
theorem foldl_step_spec (inFill : Contour → Point → Bool) (folder : String)
    (img : Img) (l : List (Nat × Contour)) :
    ∀ (heap : List Buf) (fs : List SavedFile), 0 < heap.length →
      heap.getD 0 dfltBuf = Buf.color img →
      0 < (l.foldl (stepContour inFill folder) (heap, fs)).1.length ∧
      (l.foldl (stepContour inFill folder) (heap, fs)).1.getD 0 dfltBuf =
        Buf.color img ∧
      (l.foldl (stepContour inFill folder) (heap, fs)).2 =
        fs ++ l.filterMap (savedFor inFill folder img) := by
  induction l with
  | nil => intro heap fs hlen h0; exact ⟨hlen, h0, by simp⟩
  | cons ic t ih =>
    intro heap fs hlen h0
    by_cases hs : survives ic.2
    · rw [List.foldl_cons, stepContour_pos inFill folder img heap fs ic hlen h0 hs]
      have hlen1 : 0 < ((heap ++ [Buf.mono (boundingRect ic.2).w
          (boundingRect ic.2).h (fun _ _ => 0)]).set heap.length
            (Buf.mono (boundingRect ic.2).w (boundingRect ic.2).h
              (fillMaskVal inFill ic.2 (boundingRect ic.2).x (boundingRect ic.2).y))
          ++ [Buf.color (maskedRoi inFill img ic.2)]).length := by
        simp
      have h01 : ((heap ++ [Buf.mono (boundingRect ic.2).w
          (boundingRect ic.2).h (fun _ _ => 0)]).set heap.length
            (Buf.mono (boundingRect ic.2).w (boundingRect ic.2).h
              (fillMaskVal inFill ic.2 (boundingRect ic.2).x (boundingRect ic.2).y))
          ++ [Buf.color (maskedRoi inFill img ic.2)]).getD 0 dfltBuf =
          Buf.color img := by
        rw [getD_append_left _ _ _ _ (by simp [Nat.lt_succ_of_lt hlen]),
          getD_set_ne _ _ (Nat.ne_of_gt hlen),
          getD_append_left _ _ _ _ hlen, h0]
      obtain ⟨a, b, c⟩ := ih _ _ hlen1 h01
      refine ⟨a, b, ?_⟩
      rw [c]
      have hsf : savedFor inFill folder img ic =
          some ⟨ic.1 + 1, fileName folder (ic.1 + 1), maskedRoi inFill img ic.2⟩ := by
        simp [savedFor, hs]
      simp [hsf]
    · rw [List.foldl_cons]
      have hstep : stepContour inFill folder (heap, fs) ic = (heap, fs) := by
        simp [stepContour, if_neg hs]
      rw [hstep]
      obtain ⟨a, b, c⟩ := ih heap fs hlen h0
      refine ⟨a, b, ?_⟩
      rw [c]
      have hsf : savedFor inFill folder img ic = none := by
        simp [savedFor, hs]
      simp [hsf]

/-- The files a successful run writes are exactly the `filterMap` of
`savedFor` over the enumerated detected contours. -/
theorem extract_files_eq (mean : (Nat → Nat → Nat) → Nat → Nat → Nat)
    (detect : (Nat → Nat → Nat) → List Contour)
    (inFill : Contour → Point → Bool) (img : Img) (folder : String) (z : Bool) :
    (extract_multiple_images_from_composite mean detect inFill (some img)
        folder z).files =
      ((detect (adaptiveThreshInv mean (grayImg img) 255 2)).enum).filterMap
        (savedFor inFill folder img) := by
  have h := foldl_step_spec inFill folder img
    ((detect (adaptiveThreshInv mean (grayImg img) 255 2)).enum)
    [Buf.color img,
      Buf.mono img.width img.height (grayImg img),
      Buf.mono img.width img.height (adaptiveThreshInv mean (grayImg img) 255 2)]
    [] (by simp) rfl
  simpa [extract_multiple_images_from_composite] using h.2.2

/-- The bounding rectangle of a nonempty in-bounds contour lies inside the
image. -/
theorem boundingRect_bounds (p : Point) (ps : List Point) (W H : Nat)
    (hW : ∀ q ∈ p :: ps, q.1 < W) (hH : ∀ q ∈ p :: ps, q.2 < H) :
    (boundingRect (p :: ps)).x + (boundingRect (p :: ps)).w ≤ W ∧
    (boundingRect (p :: ps)).y + (boundingRect (p :: ps)).h ≤ H := by
  have hx0 : (boundingRect (p :: ps)).x = (ps.map Prod.fst).foldl Nat.min p.1 := rfl
  have hw : (boundingRect (p :: ps)).w =
      (ps.map Prod.fst).foldl Nat.max p.1 - (ps.map Prod.fst).foldl Nat.min p.1 + 1 := rfl
  have hy0 : (boundingRect (p :: ps)).y = (ps.map Prod.snd).foldl Nat.min p.2 := rfl
  have hh : (boundingRect (p :: ps)).h =
      (ps.map Prod.snd).foldl Nat.max p.2 - (ps.map Prod.snd).foldl Nat.min p.2 + 1 := rfl
  have hxmax : (ps.map Prod.fst).foldl Nat.max p.1 < W := by
    apply foldl_max_lt
    · exact hW p (List.mem_cons_self p ps)
    · intro b hb
      obtain ⟨q, hq, hqb⟩ := List.mem_map.mp hb
      exact hqb ▸ hW q (List.mem_cons_of_mem p hq)
  have hymax : (ps.map Prod.snd).foldl Nat.max p.2 < H := by
    apply foldl_max_lt
    · exact hH p (List.mem_cons_self p ps)
    · intro b hb
      obtain ⟨q, hq, hqb⟩ := List.mem_map.mp hb
      exact hqb ▸ hH q (List.mem_cons_of_mem p hq)
  have hxle := foldl_min_le_foldl_max (ps.map Prod.fst) p.1
  have hyle := foldl_min_le_foldl_max (ps.map Prod.snd) p.2
  rw [hx0, hw, hy0, hh]
  omega

/-- A NumPy slice whose extent fits inside the array has exactly the
requested dimensions. -/
theorem sliceRoi_dims (img : Img) (x y w h : Nat) (hx : x + w ≤ img.width)
    (hy : y + h ≤ img.height) :
    (sliceRoi img x y w h).width = w ∧ (sliceRoi img x y w h).height = h := by
  have h1 : min (x + w) img.width = x + w := Nat.min_eq_left hx
  have h2 : min x img.width = x := Nat.min_eq_left (by omega)
  have h3 : min (y + h) img.height = y + h := Nat.min_eq_left hy
  have h4 : min y img.height = y := Nat.min_eq_left (by omega)
  constructor
  · show min (x + w) img.width - min x img.width = w
    omega
  · show min (y + h) img.height - min y img.height = h
    omega

/-- Masking an 8-bit value with 255 is the identity. -/
theorem and_255_eq (x : Nat) (h : x < 256) : x &&& 255 = x := by
  have h2 : (2 : Nat) ^ 8 = 256 := by norm_num
  have h8 : x < 2 ^ 8 := by rw [h2]; exact h
  have hh := Nat.and_pow_two_sub_one_of_lt_two_pow h8
  rw [h2] at hh
  norm_num at hh
  exact hh

/-- On 8-bit rasters, `cv2.bitwise_and(roi, roi, mask=mask)` with a 0/255
mask coincides with the per-pixel, per-channel AND of `roi` with the mask. -/
theorem maskedRoi_eq_andMask (inFill : Contour → Point → Bool) (img : Img)
    (c : Contour)
    (hpx : ∀ y x, (img.px y x).1 < 256 ∧ (img.px y x).2.1 < 256 ∧
      (img.px y x).2.2 < 256) :
    maskedRoi inFill img c =
      andMaskSpec
        (sliceRoi img (boundingRect c).x (boundingRect c).y (boundingRect c).w
          (boundingRect c).h)
        (fillMaskVal inFill c (boundingRect c).x (boundingRect c).y) := by
  apply Img.ext
  · rfl
  · rfl
  · funext r col
    show (bitwiseAndMasked _ _ _).px r col = _
    by_cases hm : inFill (shiftContour c (boundingRect c).x (boundingRect c).y)
        (col, r) = true
    · have hmv : fillMaskVal inFill c (boundingRect c).x (boundingRect c).y r col
          = 255 := by
        simp [fillMaskVal, hm]
      simp only [bitwiseAndMasked, andMaskSpec, hmv]
      rw [if_pos (by omega : (255 : Nat) ≠ 0)]
      obtain ⟨h1, h2, h3⟩ := hpx
        (min (boundingRect c).y img.height + r)
        (min (boundingRect c).x img.width + col)
      simp [pxAnd, sliceRoi, Nat.and_self, and_255_eq _ h1, and_255_eq _ h2,
        and_255_eq _ h3]
    · have hmv : fillMaskVal inFill c (boundingRect c).x (boundingRect c).y r col
          = 0 := by
        simp [fillMaskVal, hm]
      simp [bitwiseAndMasked, andMaskSpec, hmv]

/-- Background pixels (mask 0) of the saved raster are black. -/
theorem maskedRoi_background (inFill : Contour → Point → Bool) (img : Img)
    (c : Contour) (r col : Nat)
    (h : fillMaskVal inFill c (boundingRect c).x (boundingRect c).y r col = 0) :
    (maskedRoi inFill img c).px r col = (0, 0, 0) := by
  show (bitwiseAndMasked _ _ _).px r col = _
  simp [bitwiseAndMasked, h]

/-- The OpenCV grayscale conversion of a pure white BGR pixel is 255. -/
theorem grayOf_white : grayOf (255, 255, 255) = 255 := by decide

/-- On an all-white image, inverted adaptive thresholding with a normalised
local mean and offset 2 yields the all-zero raster. -/
theorem thresh_white_zero (mean : (Nat → Nat → Nat) → Nat → Nat → Nat)
    (hmean : ∀ (g : Nat → Nat → Nat) (v : Nat), (∀ y x, g y x = v) →
      ∀ y x, mean g y x = v)
    (img : Img) (hwhite : ∀ y x, img.px y x = (255, 255, 255)) :
    ∀ y x, adaptiveThreshInv mean (grayImg img) 255 2 y x = 0 := by
  have hg : ∀ y x, grayImg img y x = 255 := by
    intro y x
    show grayOf (img.px y x) = 255
    rw [hwhite y x]
    exact grayOf_white
  intro y x
  have hm : mean (grayImg img) y x = 255 := hmean _ 255 hg y x
  show (if ((grayImg img y x : Int) > (mean (grayImg img) y x : Int) - 2)
    then 0 else 255) = 0
  rw [hg y x, hm]
  norm_num

/-- The indices of the written files are the 1-based positions of the
surviving contours among all detected contours. -/
theorem savedFor_indices (inFill : Contour → Point → Bool) (folder : String)
    (img : Img) (l : List Contour) :
    ∀ n : Nat,
      (((List.enumFrom n l).filterMap (savedFor inFill folder img)).map
        SavedFile.index) =
      ((List.enumFrom n l).filter (fun ic => decide (survives ic.2))).map
        (fun ic => ic.1 + 1) := by
  induction l with
  | nil => intro n; simp
  | cons c t ih =>
    intro n
    by_cases hs : survives c
    · simp [List.filterMap_cons, List.filter_cons, savedFor, hs, ih (n + 1)]
    · simp [List.filterMap_cons, List.filter_cons, savedFor, hs, ih (n + 1)]

/-- Every written index strictly exceeds the enumeration start. -/
theorem savedFor_index_lb (inFill : Contour → Point → Bool) (folder : String)
    (img : Img) (l : List Contour) :
    ∀ (n k : Nat),
      k ∈ (((List.enumFrom n l).filterMap (savedFor inFill folder img)).map
        SavedFile.index) → n < k := by
  induction l with
  | nil => intro n k hk; simp at hk
  | cons c t ih =>
    intro n k hk
    by_cases hs : survives c
    · simp only [List.enumFrom_cons, List.filterMap_cons, savedFor, if_pos hs,
        List.map_cons, List.mem_cons] at hk
      rcases hk with h | h
      · omega
      · have := ih (n + 1) k h
        omega
    · simp only [List.enumFrom_cons, List.filterMap_cons, savedFor,
        if_neg hs] at hk
      have := ih (n + 1) k hk
      omega

/-- The written indices are strictly increasing in detection order. -/
theorem savedFor_index_pairwise (inFill : Contour → Point → Bool)
    (folder : String) (img : Img) (l : List Contour) :
    ∀ n : Nat,
      List.Pairwise (fun a b => a < b)
        (((List.enumFrom n l).filterMap (savedFor inFill folder img)).map
          SavedFile.index) := by
  induction l with
  | nil => intro n; simp
  | cons c t ih =>
    intro n
    by_cases hs : survives c
    · simp only [List.enumFrom_cons, List.filterMap_cons, savedFor, if_pos hs,
        List.map_cons]
      exact List.Pairwise.cons
        (fun k hk => savedFor_index_lb inFill folder img t (n + 1) k hk)
        (ih (n + 1))
    · simp only [List.enumFrom_cons, List.filterMap_cons, savedFor, if_neg hs]
      exact ih (n + 1)

/-- Membership of an index among the written indices decides survival of the
contour at the corresponding position. -/
theorem savedFor_index_mem (inFill : Contour → Point → Bool) (folder : String)
    (img : Img) (l : List Contour) :
    ∀ (j n : Nat) (c : Contour), l.get? j = some c →
      ((n + j + 1) ∈ (((List.enumFrom n l).filterMap
          (savedFor inFill folder img)).map SavedFile.index) ↔ survives c) := by
  induction l with
  | nil => intro j n c hc; simp at hc
  | cons c0 t ih =>
    intro j n c hc
    cases j with
    | zero =>
      have hc0 : c = c0 := by
        simp [List.get?] at hc
        exact hc.symm
      subst hc0
      by_cases hs : survives c
      · simp [List.filterMap_cons, savedFor, hs]
      · simp only [List.enumFrom_cons, List.filterMap_cons, savedFor,
          if_neg hs]
        constructor
        · intro hk
          have := savedFor_index_lb inFill folder img t (n + 1) (n + 0 + 1) hk
          omega
        · intro hk
          exact absurd hk hs
    | succ j =>
      have hct : t.get? j = some c := by simpa [List.get?] using hc
      by_cases hs : survives c0
      · simp only [List.enumFrom_cons, List.filterMap_cons, savedFor,
          if_pos hs, List.map_cons, List.mem_cons]
        have hne : ¬ (n + (j + 1) + 1 = n + 1) := by omega
        have hIH := ih j (n + 1) c hct
        constructor
        · intro hk
          rcases hk with h | h
          · exact absurd h hne
          · exact hIH.mp (by
              have : n + 1 + j + 1 = n + (j + 1) + 1 := by omega
              rw [this]
              exact h)
        · intro hk
          right
          have : n + (j + 1) + 1 = n + 1 + j + 1 := by omega
          rw [this]
          exact hIH.mpr hk
      · simp only [List.enumFrom_cons, List.filterMap_cons, savedFor,
          if_neg hs]
        have hIH := ih j (n + 1) c hct
        have : n + (j + 1) + 1 = n + 1 + j + 1 := by omega
        rw [this]
        exact hIH

/-- The run writes exactly one file per surviving contour. -/
theorem savedFor_length (inFill : Contour → Point → Bool) (folder : String)
    (img : Img) (l : List Contour) :
    ∀ n : Nat,
      ((List.enumFrom n l).filterMap (savedFor inFill folder img)).length =
        (l.filter (fun c => decide (survives c))).length := by
  induction l with
  | nil => intro n; simp
  | cons c t ih =>
    intro n
    by_cases hs : survives c
    · simp [List.filterMap_cons, List.filter_cons, savedFor, hs, ih (n + 1)]
    · simp [List.filterMap_cons, List.filter_cons, savedFor, hs, ih (n + 1)]

/-- Adding one to each enumeration index yields a contiguous range. -/
theorem enumFrom_map_index_succ (l : List Contour) :
    ∀ n : Nat,
      (List.enumFrom n l).map (fun ic => ic.1 + 1) =
        List.range' (n + 1) l.length := by
  induction l with
  | nil => intro n; simp
  | cons c t ih =>
    intro n
    simp only [List.enumFrom_cons, List.map_cons, List.length_cons,
      List.range'_succ, ih (n + 1)]

/-- The second component of an enumerated pair is a member of the list. -/
theorem snd_mem_of_mem_enumFrom (l : List Contour) :
    ∀ (n : Nat) (ic : Nat × Contour), ic ∈ List.enumFrom n l → ic.2 ∈ l := by
  induction l with
  | nil => intro n ic h; simp at h
  | cons c t ih =>
    intro n ic h
    simp only [List.enumFrom_cons, List.mem_cons] at h
    rcases h with h | h
    · subst h; exact List.mem_cons_self c t
    · exact List.mem_cons_of_mem c (ih (n + 1) ic h)

/-- Applying a write list reads back as: the last write to the name if any,
otherwise the prior contents. -/
theorem applyWrites_eq (l : List SavedFile) :
    ∀ (fs : FileStore) (n : String),
      applyWrites fs l n =
        match lastWrite l n with
        | some v => some v
        | none => fs n := by
  induction l with
  | nil => intro fs n; rfl
  | cons f t ih =>
    intro fs n
    have hstep : applyWrites fs (f :: t) = applyWrites (writeFile fs f.name f.image) t := rfl
    rw [hstep, ih]
    cases h : lastWrite t n with
    | some v => simp [lastWrite, h]
    | none =>
      simp only [lastWrite, h]
      by_cases hn : f.name = n
      · simp [writeFile, hn]
      · have hn' : ¬ n = f.name := fun hh => hn hh.symm
        simp [writeFile, hn, hn']

/-- Applying the same write list twice is the same as applying it once. -/
theorem applyWrites_idem (l : List SavedFile) (fs : FileStore) :
    applyWrites (applyWrites fs l) l = applyWrites fs l := by
  funext n
  rw [applyWrites_eq, applyWrites_eq]
  cases h : lastWrite l n with
  | some v => simp [h]
  | none => simp [h, applyWrites_eq]

/-- C1 (counterexample): with one undersized contour detected before one
surviving contour, the single output file is numbered 2, not 1, so the
claimed consecutive numbering 1..K fails. -/
theorem extract_consecutive_indices_counterexample :
    ¬ ((extract_multiple_images_from_composite meanId detectTwo inFillAll
          (some imgDark) "out" false).files.map SavedFile.index =
        List.range' 1 (extract_multiple_images_from_composite meanId detectTwo
          inFillAll (some imgDark) "out" false).files.length) := by
  decide

/-- C1 (amended): each surviving region is written with index `p + 1` where
`p` is its 0-based position among all detected contours; the indices are
strictly increasing in detection order, and they are exactly `1..K` when no
detected contour is discarded by the size filter. -/
theorem extract_indexing (mean : (Nat → Nat → Nat) → Nat → Nat → Nat)
    (detect : (Nat → Nat → Nat) → List Contour)
    (inFill : Contour → Point → Bool) (img : Img) (folder : String) (z : Bool) :
    ((extract_multiple_images_from_composite mean detect inFill (some img)
        folder z).files.map SavedFile.index =
      ((detect (adaptiveThreshInv mean (grayImg img) 255 2)).enum.filter
        (fun ic => decide (survives ic.2))).map (fun ic => ic.1 + 1))
    ∧ List.Pairwise (fun a b => a < b)
        ((extract_multiple_images_from_composite mean detect inFill (some img)
          folder z).files.map SavedFile.index)
    ∧ ((∀ c ∈ detect (adaptiveThreshInv mean (grayImg img) 255 2), survives c) →
        (extract_multiple_images_from_composite mean detect inFill (some img)
            folder z).files.map SavedFile.index =
          List.range' 1
            (detect (adaptiveThreshInv mean (grayImg img) 255 2)).length) := by
  have henum : (detect (adaptiveThreshInv mean (grayImg img) 255 2)).enum =
      List.enumFrom 0 (detect (adaptiveThreshInv mean (grayImg img) 255 2)) := rfl
  refine ⟨?_, ?_, ?_⟩
  · rw [extract_files_eq, henum]
    exact savedFor_indices inFill folder img _ 0
  · rw [extract_files_eq, henum]
    exact savedFor_index_pairwise inFill folder img _ 0
  · intro hall
    rw [extract_files_eq, henum, savedFor_indices inFill folder img _ 0]
    have hfil : (List.enumFrom 0
        (detect (adaptiveThreshInv mean (grayImg img) 255 2))).filter
          (fun ic => decide (survives ic.2)) =
        List.enumFrom 0 (detect (adaptiveThreshInv mean (grayImg img) 255 2)) := by
      apply List.filter_eq_self.mpr
      intro ic hic
      exact decide_eq_true (hall ic.2 (snd_mem_of_mem_enumFrom _ 0 ic hic))
    rw [hfil]
    have := enumFrom_map_index_succ
      (detect (adaptiveThreshInv mean (grayImg img) 255 2)) 0
    simpa using this

/-- C1 (witness): a run whose detected contours all survive gets consecutive
indices 1..K. -/
theorem extract_indexing_witness :
    (∀ c ∈ detectOne (adaptiveThreshInv meanId (grayImg imgDark) 255 2),
      survives c) ∧
    (extract_multiple_images_from_composite meanId detectOne inFillAll
        (some imgDark) "out" false).files.map SavedFile.index =
      List.range' 1
        (detectOne (adaptiveThreshInv meanId (grayImg imgDark) 255 2)).length :=
  ⟨by decide,
    (extract_indexing meanId detectOne inFillAll imgDark "out" false).2.2
      (by decide)⟩

/-- C2: one output file per surviving detected region, and no two output
files share an index. -/
theorem extract_file_count_and_distinct
    (mean : (Nat → Nat → Nat) → Nat → Nat → Nat)
    (detect : (Nat → Nat → Nat) → List Contour)
    (inFill : Contour → Point → Bool) (img : Img) (folder : String) (z : Bool) :
    (extract_multiple_images_from_composite mean detect inFill (some img)
        folder z).files.length =
      ((detect (adaptiveThreshInv mean (grayImg img) 255 2)).filter
        (fun c => decide (survives c))).length
    ∧ ((extract_multiple_images_from_composite mean detect inFill (some img)
        folder z).files.map SavedFile.index).Nodup := by
  constructor
  · rw [extract_files_eq]
    exact savedFor_length inFill folder img _ 0
  · rw [extract_files_eq]
    exact List.Pairwise.imp (fun h => Nat.ne_of_lt h)
      (savedFor_index_pairwise inFill folder img _ 0)

/-- C3: a detected region is written if and only if its bounding box is
strictly wider and taller than 20 px; a 20×30 box is never written and a
21×21 box always is. -/
theorem extract_size_filter_iff (mean : (Nat → Nat → Nat) → Nat → Nat → Nat)
    (detect : (Nat → Nat → Nat) → List Contour)
    (inFill : Contour → Point → Bool) (img : Img) (folder : String) (z : Bool)
    (j : Nat) (c : Contour)
    (hc : (detect (adaptiveThreshInv mean (grayImg img) 255 2)).get? j = some c) :
    ((j + 1) ∈ ((extract_multiple_images_from_composite mean detect inFill
        (some img) folder z).files.map SavedFile.index) ↔ survives c)
    ∧ (∀ (i : Nat) (c' : Contour), (boundingRect c').w = 20 →
        (boundingRect c').h = 30 → savedFor inFill folder img (i, c') = none)
    ∧ (∀ (i : Nat) (c' : Contour), (boundingRect c').w = 21 →
        (boundingRect c').h = 21 →
        (savedFor inFill folder img (i, c')).isSome = true) := by
  refine ⟨?_, ?_, ?_⟩
  · rw [extract_files_eq]
    have := savedFor_index_mem inFill folder img _ j 0 c hc
    simpa using this
  · intro i c' hw hh
    simp [savedFor, survives, hw, MIN_CONTOUR_WIDTH]
  · intro i c' hw hh
    simp [savedFor, survives, hw, hh, MIN_CONTOUR_WIDTH, MIN_CONTOUR_HEIGHT]

/-- C3 (witness): in a concrete run the surviving second contour's index 2 is
written; membership at position 1 holds exactly by the size filter. -/
theorem extract_size_filter_iff_witness :
    ((detectTwo (adaptiveThreshInv meanId (grayImg imgDark) 255 2)).get? 1 =
      some contourBig) ∧
    ((1 + 1) ∈ ((extract_multiple_images_from_composite meanId detectTwo
        inFillAll (some imgDark) "out" false).files.map SavedFile.index) ↔
      survives contourBig) :=
  ⟨rfl,
    (extract_size_filter_iff meanId detectTwo inFillAll imgDark "out" false 1
      contourBig rfl).1⟩

/-- C4: when the image fails to load the run logs an error and performs no
other side effect: no directory creation, no buffer allocation, no file
write, no zip. -/
theorem extract_load_failure_no_side_effects
    (mean : (Nat → Nat → Nat) → Nat → Nat → Nat)
    (detect : (Nat → Nat → Nat) → List Contour)
    (inFill : Contour → Point → Bool) (folder : String) (z : Bool) :
    (extract_multiple_images_from_composite mean detect inFill none folder
        z).errorLogged = true
    ∧ (extract_multiple_images_from_composite mean detect inFill none folder
        z).dirCreated = false
    ∧ (extract_multiple_images_from_composite mean detect inFill none folder
        z).heap = []
    ∧ (extract_multiple_images_from_composite mean detect inFill none folder
        z).files = []
    ∧ (extract_multiple_images_from_composite mean detect inFill none folder
        z).zipWritten = false :=
  ⟨rfl, rfl, rfl, rfl, rfl⟩

/-- C5: every written raster is the per-pixel, per-channel AND of the cropped
region with the 0/255 filled-contour mask, so background pixels are black;
the output is a 3-channel BGR raster (the `Pixel` type) with no alpha
channel. -/
theorem extract_masked_output (mean : (Nat → Nat → Nat) → Nat → Nat → Nat)
    (detect : (Nat → Nat → Nat) → List Contour)
    (inFill : Contour → Point → Bool) (img : Img) (folder : String) (z : Bool)
    (hpx : ∀ y x, (img.px y x).1 < 256 ∧ (img.px y x).2.1 < 256 ∧
      (img.px y x).2.2 < 256) :
    ∀ f ∈ (extract_multiple_images_from_composite mean detect inFill (some img)
        folder z).files,
      ∃ c ∈ detect (adaptiveThreshInv mean (grayImg img) 255 2),
        f.image = andMaskSpec
            (sliceRoi img (boundingRect c).x (boundingRect c).y
              (boundingRect c).w (boundingRect c).h)
            (fillMaskVal inFill c (boundingRect c).x (boundingRect c).y)
        ∧ (∀ r col,
            fillMaskVal inFill c (boundingRect c).x (boundingRect c).y r col = 0 →
            f.image.px r col = (0, 0, 0)) := by
  intro f hf
  rw [extract_files_eq] at hf
  obtain ⟨ic, hmem, hsf⟩ := List.mem_filterMap.mp hf
  have himg : f.image = maskedRoi inFill img ic.2 := by
    by_cases hs : survives ic.2
    · rw [savedFor, if_pos hs] at hsf
      cases hsf
      rfl
    · rw [savedFor, if_neg hs] at hsf
      cases hsf
  refine ⟨ic.2, snd_mem_of_mem_enumFrom _ 0 ic hmem, ?_, ?_⟩
  · rw [himg]
    exact maskedRoi_eq_andMask inFill img ic.2 hpx
  · intro r col hmask
    rw [himg]
    exact maskedRoi_background inFill img ic.2 r col hmask

/-- C5 (witness): the masking theorem applied to a concrete constant-colour
run. -/
theorem extract_masked_output_witness :
    (∀ y x, (imgTint.px y x).1 < 256 ∧ (imgTint.px y x).2.1 < 256 ∧
      (imgTint.px y x).2.2 < 256) ∧
    (∀ f ∈ (extract_multiple_images_from_composite meanId detectOne inFillAll
        (some imgTint) "out" false).files,
      ∃ c ∈ detectOne (adaptiveThreshInv meanId (grayImg imgTint) 255 2),
        f.image = andMaskSpec
            (sliceRoi imgTint (boundingRect c).x (boundingRect c).y
              (boundingRect c).w (boundingRect c).h)
            (fillMaskVal inFillAll c (boundingRect c).x (boundingRect c).y)
        ∧ (∀ r col,
            fillMaskVal inFillAll c (boundingRect c).x (boundingRect c).y r col
              = 0 →
            f.image.px r col = (0, 0, 0))) :=
  ⟨fun _ _ => by
      show (10 : Nat) < 256 ∧ (20 : Nat) < 256 ∧ (30 : Nat) < 256
      decide,
    extract_masked_output meanId detectOne inFillAll imgTint "out" false
      (fun _ _ => by
        show (10 : Nat) < 256 ∧ (20 : Nat) < 256 ∧ (30 : Nat) < 256
        decide)⟩

/-- C6: under the `findContours` guarantee that contour points lie inside
the image, every written raster's dimensions equal its region's bounding box
dimensions. -/
theorem extract_output_dims (mean : (Nat → Nat → Nat) → Nat → Nat → Nat)
    (detect : (Nat → Nat → Nat) → List Contour)
    (inFill : Contour → Point → Bool) (img : Img) (folder : String) (z : Bool)
    (hin : ∀ c ∈ detect (adaptiveThreshInv mean (grayImg img) 255 2),
      ∀ p ∈ c, p.1 < img.width ∧ p.2 < img.height) :
    ∀ f ∈ (extract_multiple_images_from_composite mean detect inFill (some img)
        folder z).files,
      ∃ c ∈ detect (adaptiveThreshInv mean (grayImg img) 255 2),
        (∃ i, savedFor inFill folder img (i, c) = some f) ∧
        f.image.width = (boundingRect c).w ∧
        f.image.height = (boundingRect c).h := by
  intro f hf
  rw [extract_files_eq] at hf
  obtain ⟨ic, hmem, hsf⟩ := List.mem_filterMap.mp hf
  have hcl : ic.2 ∈ detect (adaptiveThreshInv mean (grayImg img) 255 2) :=
    snd_mem_of_mem_enumFrom _ 0 ic hmem
  have hs : survives ic.2 := by
    by_contra hns
    rw [savedFor, if_neg hns] at hsf
    cases hsf
  have himg : f.image = maskedRoi inFill img ic.2 := by
    rw [savedFor, if_pos hs] at hsf
    cases hsf
    rfl
  refine ⟨ic.2, hcl, ⟨ic.1, hsf⟩, ?_⟩
  cases hcc : ic.2 with
  | nil =>
    exfalso
    rw [hcc] at hs
    exact absurd hs (by decide)
  | cons p ps =>
    have hbounds := boundingRect_bounds p ps img.width img.height
      (fun q hq => (hin ic.2 hcl q (hcc ▸ hq)).1)
      (fun q hq => (hin ic.2 hcl q (hcc ▸ hq)).2)
    have hdims := sliceRoi_dims img (boundingRect (p :: ps)).x
      (boundingRect (p :: ps)).y (boundingRect (p :: ps)).w
      (boundingRect (p :: ps)).h hbounds.1 hbounds.2
    rw [himg, hcc]
    exact hdims

/-- C6 (witness): the dimensions theorem applied to a concrete run whose
contour lies inside the image. -/
theorem extract_output_dims_witness :
    (∀ c ∈ detectOne (adaptiveThreshInv meanId (grayImg imgDark) 255 2),
      ∀ p ∈ c, p.1 < imgDark.width ∧ p.2 < imgDark.height) ∧
    (∀ f ∈ (extract_multiple_images_from_composite meanId detectOne inFillAll
        (some imgDark) "out" false).files,
      ∃ c ∈ detectOne (adaptiveThreshInv meanId (grayImg imgDark) 255 2),
        (∃ i, savedFor inFillAll "out" imgDark (i, c) = some f) ∧
        f.image.width = (boundingRect c).w ∧
        f.image.height = (boundingRect c).h) :=
  ⟨by decide,
    extract_output_dims meanId detectOne inFillAll imgDark "out" false
      (by decide)⟩

/-- C7: on an all-white image the inverted adaptive threshold is the all-zero
raster, no contours are detected, and no output file is written. -/
theorem extract_blank_input_no_output
    (mean : (Nat → Nat → Nat) → Nat → Nat → Nat)
    (detect : (Nat → Nat → Nat) → List Contour)
    (inFill : Contour → Point → Bool) (img : Img) (folder : String) (z : Bool)
    (hmean : ∀ (g : Nat → Nat → Nat) (v : Nat), (∀ y x, g y x = v) →
      ∀ y x, mean g y x = v)
    (hdetect : ∀ b : Nat → Nat → Nat, (∀ y x, b y x = 0) → detect b = [])
    (hwhite : ∀ y x, img.px y x = (255, 255, 255)) :
    (∀ y x, adaptiveThreshInv mean (grayImg img) 255 2 y x = 0)
    ∧ detect (adaptiveThreshInv mean (grayImg img) 255 2) = []
    ∧ (extract_multiple_images_from_composite mean detect inFill (some img)
        folder z).files = [] := by
  have hth := thresh_white_zero mean hmean img hwhite
  have hdet := hdetect _ hth
  refine ⟨hth, hdet, ?_⟩
  rw [extract_files_eq, hdet]
  rfl

/-- C7 (witness): the blank-input theorem applied at the delta-kernel mean,
the empty detector and a concrete all-white image. -/
theorem extract_blank_input_no_output_witness :
    (∀ (g : Nat → Nat → Nat) (v : Nat), (∀ y x, g y x = v) →
      ∀ y x, meanId g y x = v) ∧
    (∀ b : Nat → Nat → Nat, (∀ y x, b y x = 0) → detectEmpty b = []) ∧
    (∀ y x, imgWhite.px y x = (255, 255, 255)) ∧
    (extract_multiple_images_from_composite meanId detectEmpty inFillAll
      (some imgWhite) "out" false).files = [] :=
  ⟨fun _ _ h y x => h y x, fun _ _ => rfl, fun _ _ => rfl,
    (extract_blank_input_no_output meanId detectEmpty inFillAll imgWhite "out"
      false (fun _ _ h y x => h y x) (fun _ _ => rfl) (fun _ _ => rfl)).2.2⟩

/-- C8: running the extractor twice into the same output directory leaves the
directory exactly as after one run: every write unconditionally overwrites,
and the second run rewrites identical content. -/
theorem extract_rerun_idempotent (mean : (Nat → Nat → Nat) → Nat → Nat → Nat)
    (detect : (Nat → Nat → Nat) → List Contour)
    (inFill : Contour → Point → Bool) (imread : Option Img) (folder : String)
    (z : Bool) (fs : FileStore) :
    runOnStore mean detect inFill imread folder z
        (runOnStore mean detect inFill imread folder z fs) =
      runOnStore mean detect inFill imread folder z fs :=
  applyWrites_idem _ fs

/-- C9: the loaded source image (heap cell 0) is never mutated by the run:
cropping reads a view, the mask is drawn in a fresh buffer, and the masked
composite is allocated fresh, so cell 0 still holds the original image, pixel
for pixel. -/
theorem extract_source_image_unchanged
    (mean : (Nat → Nat → Nat) → Nat → Nat → Nat)
    (detect : (Nat → Nat → Nat) → List Contour)
    (inFill : Contour → Point → Bool) (img : Img) (folder : String) (z : Bool) :
    (extract_multiple_images_from_composite mean detect inFill (some img)
        folder z).heap.getD 0 dfltBuf = Buf.color img
    ∧ (∀ y x, ((extract_multiple_images_from_composite mean detect inFill
        (some img) folder z).heap.getD 0 dfltBuf).asColor.px y x = img.px y x) := by
  have h := foldl_step_spec inFill folder img
    ((detect (adaptiveThreshInv mean (grayImg img) 255 2)).enum)
    [Buf.color img,
      Buf.mono img.width img.height (grayImg img),
      Buf.mono img.width img.height (adaptiveThreshInv mean (grayImg img) 255 2)]
    [] (by simp) rfl
  have h0 : (extract_multiple_images_from_composite mean detect inFill
      (some img) folder z).heap.getD 0 dfltBuf = Buf.color img := by
    simpa [extract_multiple_images_from_composite] using h.2.1
  exact ⟨h0, fun y x => by rw [h0]; rfl⟩

/-- C10: on every successful load the output directory is created before the
size filter runs, so even a run with zero surviving regions (e.g. no detected
contours) creates it. -/
theorem extract_creates_output_dir (mean : (Nat → Nat → Nat) → Nat → Nat → Nat)
    (detect : (Nat → Nat → Nat) → List Contour)
    (inFill : Contour → Point → Bool) (img : Img) (folder : String) (z : Bool) :
    (extract_multiple_images_from_composite mean detect inFill (some img)
        folder z).dirCreated = true
    ∧ (extract_multiple_images_from_composite mean detectEmpty inFill
        (some img) folder z).dirCreated = true
    ∧ (extract_multiple_images_from_composite mean detectEmpty inFill
        (some img) folder z).files = [] :=
  ⟨rfl, rfl, rfl⟩

end ImageTools
